import Mathlib

/-!
Shallow embedding of the r68k CPU-core sources:

* `src/emu/src/ram/mod.rs` — the `AddressSpace` tag and its function-code
  numbering (`fc`, `from_flags`, `from_musashi`);
* `src/emu/src/cpu/ops/handlers.rs` — the `InstructionSetGenerator` that turns
  the list of `OpcodeHandler` rules into the 65,536-entry dispatch table
  (`generate`, `generate_with`), plus the mask/matching self-check from its
  test module;
* `src/tools/src/disassembler.rs` — effective-address decoding, immediate and
  branch-displacement decoding, and the table-scanning `disassemble` front end.

Machine integers are embedded as `Nat` with explicit truncation where the Rust
types truncate (`% 65536` for `u16` reads, `% 4294967296` for wrapping `u32`
address arithmetic, `&&& 7` and friends for the source's own masking).  Fallible
code (Rust `panic!` / `unreachable!` / failed `assert!`) is embedded as
`Option` / explicit `panicked` outcomes.  The dispatch table is embedded as a
function `Nat → α`; `generate` only ever writes indices below 65536 (this is
proved, not assumed, for rule lists satisfying the construction invariant).
-/

namespace R68K

/-- Privilege mode half of an address-space tag (`enum Mode` in
`src/emu/src/ram/mod.rs`). -/
inductive Mode where
  | User
  | Supervisor
  deriving DecidableEq, Repr

/-- Data/program half of an address-space tag (`enum Segment` in
`src/emu/src/ram/mod.rs`). -/
inductive Segment where
  | Program
  | Data
  deriving DecidableEq, Repr

/-- The two-field address-space tag (`struct AddressSpace(Mode, Segment)`). -/
structure AddressSpace where
  mode : Mode
  segment : Segment
  deriving DecidableEq, Repr

def USER_DATA : AddressSpace := ⟨Mode.User, Segment.Data⟩

def USER_PROGRAM : AddressSpace := ⟨Mode.User, Segment.Program⟩

def SUPERVISOR_DATA : AddressSpace := ⟨Mode.Supervisor, Segment.Data⟩

def SUPERVISOR_PROGRAM : AddressSpace := ⟨Mode.Supervisor, Segment.Program⟩

/-- Function-code numbering of an address space (`AddressSpace::fc`). -/
def AddressSpace.fc : AddressSpace → Nat
  | ⟨Mode.User, Segment.Data⟩ => 1
  | ⟨Mode.User, Segment.Program⟩ => 2
  | ⟨Mode.Supervisor, Segment.Data⟩ => 5
  | ⟨Mode.Supervisor, Segment.Program⟩ => 6

/-- Address space from the supervisor flag and a data/program choice
(`AddressSpace::from_flags`). -/
def AddressSpace.from_flags (s_flag fc_is_data : Bool) : AddressSpace :=
  match s_flag, fc_is_data with
  | true, true => SUPERVISOR_DATA
  | true, false => SUPERVISOR_PROGRAM
  | false, true => USER_DATA
  | false, false => USER_PROGRAM

/-- Address space from a Musashi function-code value
(`AddressSpace::from_musashi`); the source matches on `value & 0b111` and
panics on any unknown code, embedded here as `none`. -/
def AddressSpace.from_musashi (value : Nat) : Option AddressSpace :=
  match value &&& 7 with
  | 1 => some USER_DATA
  | 2 => some USER_PROGRAM
  | 5 => some SUPERVISOR_DATA
  | 6 => some SUPERVISOR_PROGRAM
  | _ => none

/-- Operand size (`enum Size` of the tools crate; its four variants
`Byte`, `Word`, `Long`, `Unsized` are the ones used by
`src/tools/src/disassembler.rs`). -/
inductive Size where
  | Byte
  | Word
  | Long
  | Unsized
  deriving DecidableEq, Repr

/-- Decoded operand (`enum Operand` of the tools crate; the constructors and
their fields are the ones constructed in `src/tools/src/disassembler.rs`).
Signed `i16`/`i8` displacement fields are embedded as `Int`. -/
inductive Operand where
  | DataRegisterDirect (r : Nat)
  | AddressRegisterDirect (r : Nat)
  | AddressRegisterIndirect (r : Nat)
  | AddressRegisterIndirectWithPostincrement (r : Nat)
  | AddressRegisterIndirectWithPredecrement (r : Nat)
  | AddressRegisterIndirectWithDisplacement (r : Nat) (d : Int)
  | AddressRegisterIndirectWithIndex (r : Nat) (indexinfo : Nat) (d : Int)
  | PcWithDisplacement (d : Int)
  | PcWithIndex (indexinfo : Nat) (d : Int)
  | AbsoluteWord (w : Nat)
  | AbsoluteLong (l : Nat)
  | Immediate (s : Size) (v : Nat)
  | StatusRegister (s : Size)
  | Displacement (s : Size) (v : Nat)
  deriving DecidableEq, Repr

/-- A memory for the disassembler (the tools crate `Memory` trait): a map from
addresses to stored words. -/
def Mem : Type := Nat → Nat

/-- `Memory::read_word` returns a `u16`; embedded as truncation to 16 bits. -/
def readWord (mem : Mem) (addr : Nat) : Nat := mem addr % 65536

/-- Wrapping `u32` addition, used for the `pc + 2` / `pc + 4` extension-word
addresses computed by the disassembler. -/
def add32 (a b : Nat) : Nat := (a + b) % 4294967296

/-- Reinterpretation of a word as a signed 16-bit value (`as i16`). -/
def asI16 (n : Nat) : Int :=
  if n % 65536 < 32768 then ((n % 65536 : Nat) : Int) else ((n % 65536 : Nat) : Int) - 65536

/-- Reinterpretation of a byte as a signed 8-bit value (`as i8`). -/
def asI8 (n : Nat) : Int :=
  if n % 256 < 128 then ((n % 256 : Nat) : Int) else ((n % 256 : Nat) : Int) - 256

/-- `decode_extension_word`: top four bits select the index register, the low
byte is a sign-extended displacement. -/
def decode_extension_word (extension : Nat) : Nat × Int :=
  ((extension >>> 12) % 256, asI8 extension)

/-- `effective_address` from `src/tools/src/disassembler.rs`.  The source
panics on an unknown mode/register combination and on `Size::Unsized`
immediates; those paths are embedded as `none`. -/
def effective_address (size : Size) (pc : Nat) (mem : Mem) (mode reg_y : Nat) : Option Operand :=
  match mode with
  | 0 => some (Operand.DataRegisterDirect reg_y)
  | 1 => some (Operand.AddressRegisterDirect reg_y)
  | 2 => some (Operand.AddressRegisterIndirect reg_y)
  | 3 => some (Operand.AddressRegisterIndirectWithPostincrement reg_y)
  | 4 => some (Operand.AddressRegisterIndirectWithPredecrement reg_y)
  | 5 => some (Operand.AddressRegisterIndirectWithDisplacement reg_y
      (asI16 (readWord mem (add32 pc 2))))
  | 6 => some (Operand.AddressRegisterIndirectWithIndex reg_y
      (decode_extension_word (readWord mem (add32 pc 2))).1
      (decode_extension_word (readWord mem (add32 pc 2))).2)
  | 7 =>
    match reg_y with
    | 2 => some (Operand.PcWithDisplacement (asI16 (readWord mem (add32 pc 2))))
    | 3 => some (Operand.PcWithIndex
        (decode_extension_word (readWord mem (add32 pc 2))).1
        (decode_extension_word (readWord mem (add32 pc 2))).2)
    | 0 => some (Operand.AbsoluteWord (readWord mem (add32 pc 2)))
    | 1 => some (Operand.AbsoluteLong
        ((readWord mem (add32 pc 2)) <<< 16 ||| readWord mem (add32 pc 4)))
    | 4 =>
      match size with
      | Size.Byte => some (Operand.Immediate size ((readWord mem (add32 pc 2)) &&& 0xFF))
      | Size.Word => some (Operand.Immediate size (readWord mem (add32 pc 2)))
      | Size.Long => some (Operand.Immediate size
          ((readWord mem (add32 pc 2)) <<< 16 ||| readWord mem (add32 pc 4)))
      | Size.Unsized => none
    | _ => none
  | _ => none

/-- `decode_destination_ea`: mode is bits 6-8, register is bits 9-11. -/
def decode_destination_ea (opcode : Nat) (size : Size) (pc : Nat) (mem : Mem) : Option Operand :=
  effective_address size pc mem ((opcode >>> 6) &&& 7) ((opcode >>> 9) &&& 7)

/-- `decode_ea`: mode is bits 3-5, register is bits 0-2. -/
def decode_ea (opcode : Nat) (size : Size) (pc : Nat) (mem : Mem) : Option Operand :=
  effective_address size pc mem ((opcode >>> 3) &&& 7) (opcode &&& 7)

/-- `decode_dx`: data register selected by bits 9-11. -/
def decode_dx (opcode : Nat) (_pc : Nat) (_mem : Mem) : Operand :=
  Operand.DataRegisterDirect ((opcode >>> 9) &&& 7)

/-- `decode_ax`: address register selected by bits 9-11. -/
def decode_ax (opcode : Nat) (_pc : Nat) (_mem : Mem) : Operand :=
  Operand.AddressRegisterDirect ((opcode >>> 9) &&& 7)

/-- `decode_imm`: immediate operand read from the extension words at
`pc + 2` (and `pc + 4` for longs); panics on `Unsized` (embedded as `none`). -/
def decode_imm (size : Size) (pc : Nat) (mem : Mem) : Option Operand :=
  match size with
  | Size.Byte => some (Operand.Immediate size ((readWord mem (add32 pc 2)) &&& 0xFF))
  | Size.Word => some (Operand.Immediate size (readWord mem (add32 pc 2)))
  | Size.Long => some (Operand.Immediate size
      ((readWord mem (add32 pc 2)) <<< 16 ||| readWord mem (add32 pc 4)))
  | Size.Unsized => none

/-- `decode_branch`: displacement is the low byte of the opcode; `0x00` selects
a following word, `0xFF` a following long; the remaining branch is
`unreachable!()`, embedded as `none`. -/
def decode_branch (opcode : Nat) (_size : Size) (pc : Nat) (mem : Mem) : Option (List Operand) :=
  let disp8 := opcode &&& 0xFF
  if 0 < disp8 ∧ disp8 < 0xFF then
    some [Operand.Displacement Size.Byte disp8]
  else if disp8 = 0 then
    some [Operand.Displacement Size.Word (readWord mem (add32 pc 2))]
  else if disp8 = 0xFF then
    some [Operand.Displacement Size.Long
      ((readWord mem (add32 pc 2)) <<< 16 ||| readWord mem (add32 pc 4))]
  else
    none

/-- `valid_byte_displacement`: the byte-displacement form is valid only for a
low byte strictly between `0x00` and `0xFF`. -/
def valid_byte_displacement (opcode : Nat) : Bool :=
  decide (0 < opcode &&& 0xFF ∧ opcode &&& 0xFF < 0xFF)

/-- An opcode-table row as consumed by `disassemble` (the tools crate's table
entry type; the fields are exactly the ones `src/tools/src/disassembler.rs`
reads: `mask`, `matching`, `mnemonic`, `size`, `validator`, `decoder`).
Decoders that can panic return `none`. -/
structure DRule where
  mask : Nat
  matching : Nat
  mnemonic : String
  size : Size
  validator : Nat → Bool
  decoder : Nat → Size → Nat → Mem → Option (List Operand)

/-- Successful disassembly result (`OpcodeInstance`). -/
structure OpcodeInstance where
  mnemonic : String
  size : Size
  operands : List Operand
  deriving DecidableEq, Repr

/-- Outcome of `disassemble`: a decoded instruction, the
`Exception::IllegalInstruction(opcode, pc)` error, or a panic (failed
`assert!` on a malformed rule, or a panicking decoder). -/
inductive DisasmResult where
  | ok (inst : OpcodeInstance)
  | illegalInstruction (opcode : Nat) (pc : Nat)
  | panicked
  deriving Repr

/-- The scanning loop of `disassemble`: for each rule in order, first the
`assert!(op.mask & op.matching == op.matching)` self-check, then the
mask/matching test combined with the EA validator; the first rule passing both
has its decoder invoked and wins.  (The source's `println!` on a match that
fails the validator is a no-op and the loop continues.) -/
def disassembleGo (opcode pc : Nat) (mem : Mem) : List DRule → DisasmResult
  | [] => DisasmResult.illegalInstruction opcode pc
  | op :: rest =>
    if op.mask &&& op.matching ≠ op.matching then
      DisasmResult.panicked
    else if (opcode &&& op.mask == op.matching) && op.validator opcode then
      match op.decoder opcode op.size pc mem with
      | some ops => DisasmResult.ok ⟨op.mnemonic, op.size, ops⟩
      | none => DisasmResult.panicked
    else
      disassembleGo opcode pc mem rest

/-- `disassemble`: read one instruction word at the PC and scan the opcode
table (the table is a parameter here; the source obtains it from the tools
crate's `generate()`, whose rule list lives outside the given sources). -/
def disassemble (optable : List DRule) (pc : Nat) (mem : Mem) : DisasmResult :=
  disassembleGo (readWord mem pc) pc mem optable

/-- One row of the executor's rule list (`struct OpcodeHandler<T>` in
`src/emu/src/cpu/ops/handlers.rs`); generic in the handler type, as the source
is generic in `T: Core`. -/
structure OpcodeHandler (α : Type) where
  mask : Nat
  matching : Nat
  handler : α
  name : String

/-- Modelled from the spec: `MASK_OUT_X` leaves bits 9-11 (the X register)
free; all other bits of the 16-bit word are compared.  The constant itself is
defined in the `r68k_common` crate, which is not among the given sources. -/
def MASK_OUT_X : Nat := 0xF1FF

/-- Modelled from the spec: `MASK_OUT_X_Y` leaves bits 9-11 (X) and bits 0-2
(Y) free.  Constant from the `r68k_common` crate (not among the sources). -/
def MASK_OUT_X_Y : Nat := 0xF1F8

/-- Modelled from the spec: `MASK_LOBYTX` leaves bits 9-11 (X) plus the low 8
bits free (used by MOVEQ).  Constant from the `r68k_common` crate (not among
the sources). -/
def MASK_LOBYTX : Nat := 0xF100

/-- Modelled from the spec: `MASK_LOBYTE` leaves the low byte free (the
byte-displacement branch forms).  Constant from the `r68k_common` crate (not
among the sources). -/
def MASK_LOBYTE : Nat := 0xFF00

/-- Modelled from the spec: `MASK_EXACT` compares every bit of the opcode
word.  Constant from the `r68k_common` crate (not among the sources). -/
def MASK_EXACT : Nat := 0xFFFF

/-- Modelled from the spec: `MASK_OUT_Y` leaves bits 0-2 (Y) free.  Constant
from the `r68k_common` crate (not among the sources). -/
def MASK_OUT_Y : Nat := 0xFFF8

/-- Modelled from the spec: `MASK_LO3NIB` leaves the low three nibbles free
(the 1010/1111 unimplemented lines).  Constant from the `r68k_common` crate
(not among the sources). -/
def MASK_LO3NIB : Nat := 0xF000

/-- The `x_offset` table of `InstructionSetGenerator::generate`: the X
register is selected by bits 9-11, giving eight block starts 512 apart, each
block `len` entries long. -/
def x_offset (len : Nat) : List (Nat × Nat) :=
  [(0, len), (512, len), (1024, len), (1536, len),
   (2048, len), (2560, len), (3072, len), (3584, len)]

/-- The `offset_cache` of `generate`: a map holding fast-path offset tables for
exactly the three non-contiguous masks. -/
def offset_cache (mask : Nat) : Option (List (Nat × Nat)) :=
  if mask = MASK_OUT_X then some (x_offset 1)
  else if mask = MASK_OUT_X_Y then some (x_offset 8)
  else if mask = MASK_LOBYTX then some (x_offset 256)
  else none

/-- The fast-path index enumeration of `generate`:
`offsets.iter().flat_map(|&(start, len)| (start..(start+len)).map(|o| o + op.matching))`. -/
def fastIndices (offsets : List (Nat × Nat)) (matching : Nat) : List Nat :=
  offsets.flatMap (fun p => (List.range p.2).map (fun o => (p.1 + o) + matching))

/-- `(op.mask as u16).count_zeros()`: the number of zero bits among the low 16
bits of the mask. -/
def zeros16 (mask : Nat) : Nat :=
  (List.range 16).countP (fun i => !(mask.testBit i))

/-- The contiguous-mask scanning loop of `generate`: starting at `matching`,
visit opcodes upward, record each index with `opcode & mask == matching`, and
break once `maxCount` matches have been recorded (the source increments its
counter after the write and breaks on `matching_count >= max_count`). -/
def contigGo (mask matching opcode count maxCount : Nat) : List Nat :=
  if _h : opcode < 65536 then
    if opcode &&& mask == matching then
      if count + 1 ≥ maxCount then [opcode]
      else opcode :: contigGo mask matching (opcode + 1) (count + 1) maxCount
    else contigGo mask matching (opcode + 1) count maxCount
  else []
termination_by 65536 - opcode

/-- The set of table indices one rule writes in `generate`: the cached
fast-path offsets for the three non-contiguous masks, the scanning loop with
`max_count = 1 << (mask as u16).count_zeros()` otherwise. -/
def ruleIndices {α : Type} (op : OpcodeHandler α) : List Nat :=
  match offset_cache op.mask with
  | some offsets => fastIndices offsets op.matching
  | none => contigGo op.mask op.matching op.matching 0 (1 <<< zeros16 op.mask)

/-- A single table store `handler[opcode] = v`, on the functional table. -/
def write {α : Type} (t : Nat → α) (i : Nat) (v : α) : Nat → α :=
  fun j => if j = i then v else t j

/-- All stores performed for one rule. -/
def writeAll {α : Type} (t : Nat → α) (idxs : List Nat) (v : α) : Nat → α :=
  idxs.foldl (fun acc i => write acc i v) t

/-- `InstructionSetGenerator::generate`: a 65,536-entry table pre-filled with
`illegal`, then, rule by rule in list order, each rule's indices overwritten
with its handler. -/
def generate {α : Type} (illegalH : α) (optable : List (OpcodeHandler α)) : Nat → α :=
  optable.foldl (fun t op => writeAll t (ruleIndices op) op.handler) (fun _ => illegalH)

/-- The `x_offset` table as duplicated inside
`InstructionSetGenerator::generate_with`. -/
def x_offsetW (len : Nat) : List (Nat × Nat) :=
  [(0, len), (512, len), (1024, len), (1536, len),
   (2048, len), (2560, len), (3072, len), (3584, len)]

/-- The `offset_cache` as duplicated inside `generate_with`. -/
def offset_cacheW (mask : Nat) : Option (List (Nat × Nat)) :=
  if mask = MASK_OUT_X then some (x_offsetW 1)
  else if mask = MASK_OUT_X_Y then some (x_offsetW 8)
  else if mask = MASK_LOBYTX then some (x_offsetW 256)
  else none

/-- The fast-path index enumeration as duplicated inside `generate_with`. -/
def fastIndicesW (offsets : List (Nat × Nat)) (matching : Nat) : List Nat :=
  offsets.flatMap (fun p => (List.range p.2).map (fun o => (p.1 + o) + matching))

/-- The contiguous-mask scanning loop as duplicated inside `generate_with`. -/
def contigGoW (mask matching opcode count maxCount : Nat) : List Nat :=
  if _h : opcode < 65536 then
    if opcode &&& mask == matching then
      if count + 1 ≥ maxCount then [opcode]
      else opcode :: contigGoW mask matching (opcode + 1) (count + 1) maxCount
    else contigGoW mask matching (opcode + 1) count maxCount
  else []
termination_by 65536 - opcode

/-- Indices written for one rule by `generate_with` (duplicated loops). -/
def ruleIndicesW {α : Type} (op : OpcodeHandler α) : List Nat :=
  match offset_cacheW op.mask with
  | some offsets => fastIndicesW offsets op.matching
  | none => contigGoW op.mask op.matching op.matching 0 (1 <<< zeros16 op.mask)

/-- `InstructionSetGenerator::generate_with`: same construction as `generate`,
but the table is pre-filled with `def` and each rule stores `with(&op)`. -/
def generate_with {α β : Type} (dflt : β) (w : OpcodeHandler α → β)
    (optable : List (OpcodeHandler α)) : Nat → β :=
  optable.foldl (fun t op => writeAll t (ruleIndicesW op) (w op)) (fun _ => dflt)

/-- Specification-side index set for one rule: the naive enumeration
`for op in 0..65536 { if op & mask == matching }` quoted by the claims. -/
def naiveIndices (mask matching : Nat) : List Nat :=
  (List.range 65536).filter (fun op => op &&& mask == matching)

/-- Specification-side table: same fold as `generate`, but with each rule's
index set produced by the naive enumeration. -/
def naiveGenerate {α : Type} (illegalH : α) (optable : List (OpcodeHandler α)) : Nat → α :=
  optable.foldl (fun t op => writeAll t (naiveIndices op.mask op.matching) op.handler)
    (fun _ => illegalH)

/-- Specification-side dispatch: the last rule in list order whose
mask/matching pattern matches the opcode. -/
def lastMatch {α : Type} (optable : List (OpcodeHandler α)) (op : Nat) : Option (OpcodeHandler α) :=
  optable.foldl (fun acc r => if op &&& r.mask == r.matching then some r else acc) none

/-- The construction-time self-check
(`tests::optable_mask_and_matching_makes_sense` in
`src/emu/src/cpu/ops/handlers.rs`): walk the rule list and panic — embedded as
`Except.error` carrying the offending rule's name — on any rule with
`mask & matching != matching`. -/
def maskMatchingSelfCheck {α : Type} : List (OpcodeHandler α) → Except String Unit
  | [] => Except.ok ()
  | op :: rest =>
    if op.mask &&& op.matching ≠ op.matching then Except.error op.name
    else maskMatchingSelfCheck rest

/-- Modelled from the spec: the Bcc/BRA/BSR block of the rule list
(`generate_optable` lines 443-493).  The handler and matching constants
(`OP_BHI_8 = 0x6200`, …) live in the `r68k_common` crate, which is not among
the given sources; their values follow the spec's branch encoding (condition
in bits 8-11 of the `0110` line, 8-bit displacement in the low byte) and the
source's listing order: the sixteen byte-displacement rules on `MASK_LOBYTE`,
then the sixteen word-displacement rules on `MASK_EXACT` (low byte `0x00`),
then the sixteen long-displacement opcodes (low byte `0xFF`) deliberately
mapped to `illegal` on `MASK_EXACT`.  Handlers are represented by their
`stringify!`d names, as in the source's `name` field. -/
def branchRules : List (OpcodeHandler String) :=
  [⟨MASK_LOBYTE, 0x6200, "bhi_8", "bhi_8"⟩,
   ⟨MASK_LOBYTE, 0x6300, "bls_8", "bls_8"⟩,
   ⟨MASK_LOBYTE, 0x6400, "bcc_8", "bcc_8"⟩,
   ⟨MASK_LOBYTE, 0x6500, "bcs_8", "bcs_8"⟩,
   ⟨MASK_LOBYTE, 0x6600, "bne_8", "bne_8"⟩,
   ⟨MASK_LOBYTE, 0x6700, "beq_8", "beq_8"⟩,
   ⟨MASK_LOBYTE, 0x6800, "bvc_8", "bvc_8"⟩,
   ⟨MASK_LOBYTE, 0x6900, "bvs_8", "bvs_8"⟩,
   ⟨MASK_LOBYTE, 0x6A00, "bpl_8", "bpl_8"⟩,
   ⟨MASK_LOBYTE, 0x6B00, "bmi_8", "bmi_8"⟩,
   ⟨MASK_LOBYTE, 0x6C00, "bge_8", "bge_8"⟩,
   ⟨MASK_LOBYTE, 0x6D00, "blt_8", "blt_8"⟩,
   ⟨MASK_LOBYTE, 0x6E00, "bgt_8", "bgt_8"⟩,
   ⟨MASK_LOBYTE, 0x6F00, "ble_8", "ble_8"⟩,
   ⟨MASK_LOBYTE, 0x6000, "bra_8", "bra_8"⟩,
   ⟨MASK_LOBYTE, 0x6100, "bsr_8", "bsr_8"⟩,
   ⟨MASK_EXACT, 0x6200, "bhi_16", "bhi_16"⟩,
   ⟨MASK_EXACT, 0x6300, "bls_16", "bls_16"⟩,
   ⟨MASK_EXACT, 0x6400, "bcc_16", "bcc_16"⟩,
   ⟨MASK_EXACT, 0x6500, "bcs_16", "bcs_16"⟩,
   ⟨MASK_EXACT, 0x6600, "bne_16", "bne_16"⟩,
   ⟨MASK_EXACT, 0x6700, "beq_16", "beq_16"⟩,
   ⟨MASK_EXACT, 0x6800, "bvc_16", "bvc_16"⟩,
   ⟨MASK_EXACT, 0x6900, "bvs_16", "bvs_16"⟩,
   ⟨MASK_EXACT, 0x6A00, "bpl_16", "bpl_16"⟩,
   ⟨MASK_EXACT, 0x6B00, "bmi_16", "bmi_16"⟩,
   ⟨MASK_EXACT, 0x6C00, "bge_16", "bge_16"⟩,
   ⟨MASK_EXACT, 0x6D00, "blt_16", "blt_16"⟩,
   ⟨MASK_EXACT, 0x6E00, "bgt_16", "bgt_16"⟩,
   ⟨MASK_EXACT, 0x6F00, "ble_16", "ble_16"⟩,
   ⟨MASK_EXACT, 0x6000, "bra_16", "bra_16"⟩,
   ⟨MASK_EXACT, 0x6100, "bsr_16", "bsr_16"⟩,
   ⟨MASK_EXACT, 0x62FF, "illegal", "illegal"⟩,
   ⟨MASK_EXACT, 0x63FF, "illegal", "illegal"⟩,
   ⟨MASK_EXACT, 0x64FF, "illegal", "illegal"⟩,
   ⟨MASK_EXACT, 0x65FF, "illegal", "illegal"⟩,
   ⟨MASK_EXACT, 0x66FF, "illegal", "illegal"⟩,
   ⟨MASK_EXACT, 0x67FF, "illegal", "illegal"⟩,
   ⟨MASK_EXACT, 0x68FF, "illegal", "illegal"⟩,
   ⟨MASK_EXACT, 0x69FF, "illegal", "illegal"⟩,
   ⟨MASK_EXACT, 0x6AFF, "illegal", "illegal"⟩,
   ⟨MASK_EXACT, 0x6BFF, "illegal", "illegal"⟩,
   ⟨MASK_EXACT, 0x6CFF, "illegal", "illegal"⟩,
   ⟨MASK_EXACT, 0x6DFF, "illegal", "illegal"⟩,
   ⟨MASK_EXACT, 0x6EFF, "illegal", "illegal"⟩,
   ⟨MASK_EXACT, 0x6FFF, "illegal", "illegal"⟩,
   ⟨MASK_EXACT, 0x60FF, "illegal", "illegal"⟩,
   ⟨MASK_EXACT, 0x61FF, "illegal", "illegal"⟩]

/-- The word-displacement branch handler expected at a branch opcode with low
byte `0x00`, by condition nibble (bits 8-11): `0x6000` is BRA, `0x6100` is
BSR, `0x6200` onward are the fourteen Bcc conditions. -/
def branch16Name (c : Nat) : String :=
  ["bra_16", "bsr_16", "bhi_16", "bls_16", "bcc_16", "bcs_16", "bne_16", "beq_16",
   "bvc_16", "bvs_16", "bpl_16", "bmi_16", "bge_16", "blt_16", "bgt_16", "ble_16"].getD c "illegal"

/-- Modelled from the spec: a fragment of the executor rule list covering all
mask families (the full ~520-rule list's matching constants live in the
`r68k_common` crate, not among the given sources).  Besides the branch block
it includes the two unimplemented-line rules, the MOVEQ rule (the only
`MASK_LOBYTX` user) and the `add_8_er_*` rules whose encodings are pinned by
the repository's own disassembler tests (`0xd411` = `ADD.B (A1),D2`). -/
def optableModel : List (OpcodeHandler String) :=
  [⟨MASK_LO3NIB, 0xA000, "unimplemented_1010", "unimplemented_1010"⟩,
   ⟨MASK_LO3NIB, 0xF000, "unimplemented_1111", "unimplemented_1111"⟩,
   ⟨MASK_OUT_X_Y, 0xD000, "add_8_er_dn", "add_8_er_dn"⟩,
   ⟨MASK_OUT_X_Y, 0xD010, "add_8_er_ai", "add_8_er_ai"⟩,
   ⟨MASK_OUT_X_Y, 0xD018, "add_8_er_pi", "add_8_er_pi"⟩,
   ⟨MASK_OUT_X_Y, 0xD020, "add_8_er_pd", "add_8_er_pd"⟩,
   ⟨MASK_OUT_X_Y, 0xD028, "add_8_er_di", "add_8_er_di"⟩,
   ⟨MASK_OUT_X_Y, 0xD030, "add_8_er_ix", "add_8_er_ix"⟩,
   ⟨MASK_OUT_X, 0xD038, "add_8_er_aw", "add_8_er_aw"⟩,
   ⟨MASK_OUT_X, 0xD039, "add_8_er_al", "add_8_er_al"⟩,
   ⟨MASK_OUT_X, 0xD03A, "add_8_er_pcdi", "add_8_er_pcdi"⟩,
   ⟨MASK_OUT_X, 0xD03B, "add_8_er_pcix", "add_8_er_pcix"⟩,
   ⟨MASK_OUT_X, 0xD03C, "add_8_er_imm", "add_8_er_imm"⟩,
   ⟨MASK_LOBYTX, 0x7000, "moveq_32", "moveq_32"⟩,
   ⟨MASK_OUT_Y, 0x4E58, "unlk_32", "unlk_32"⟩]
  ++ branchRules

/-- A sample row of the shared opcode table used to exercise `disassemble`
on a concrete input: BRA with a byte displacement, validated by
`valid_byte_displacement` and decoded by `decode_branch` (both from
`src/tools/src/disassembler.rs`). -/
def braDRule : DRule :=
  ⟨0xFF00, 0x6000, "BRA", Size.Byte, valid_byte_displacement, decode_branch⟩

/-- A concrete memory whose every word reads as `0x6004` (`BRA` with byte
displacement 4). -/
def braMem : Mem := fun _ => 0x6004

/-! ### Bit-level toolkit -/

theorem testBit_hilo (hi lo n i : Nat) (h : lo < 2 ^ n) :
    (hi * 2 ^ n + lo).testBit i = if i < n then lo.testBit i else hi.testBit (i - n) := by
  rcases lt_or_ge i n with hin | hin
  · rw [if_pos hin]
    have h1 : (hi * 2 ^ n + lo) % 2 ^ n = lo := by
      rw [Nat.mul_comm, Nat.mul_add_mod]
      exact Nat.mod_eq_of_lt h
    conv_rhs => rw [← h1]
    rw [Nat.testBit_mod_two_pow]
    simp [hin]
  · rw [if_neg (not_lt.mpr hin)]
    have h2 : (hi * 2 ^ n + lo) >>> n = hi := by
      rw [Nat.shiftRight_eq_div_pow, Nat.mul_comm,
        Nat.mul_add_div (Nat.pos_pow_of_pos n (by norm_num)), Nat.div_eq_of_lt h, Nat.add_zero]
    have h3 := Nat.testBit_shiftRight (i := n) (j := i - n) (hi * 2 ^ n + lo)
    rw [h2] at h3
    rw [h3]
    congr 1
    omega

theorem testBit_mulPow (hi n i : Nat) :
    (hi * 2 ^ n).testBit i = if i < n then false else hi.testBit (i - n) := by
  have := testBit_hilo hi 0 n i (Nat.pos_pow_of_pos n (by norm_num))
  simpa using this

theorem testBit_div_pow (j n i : Nat) : (j / 2 ^ n).testBit i = j.testBit (n + i) := by
  rw [← Nat.shiftRight_eq_div_pow, Nat.testBit_shiftRight]

theorem land_F1FF (j : Nat) : j &&& 0xF1FF = j / 4096 % 16 * 4096 + j % 512 := by
  have e1 : (0xF1FF : Nat) = 15 * 2 ^ 12 + 511 := by norm_num
  have e2 : j / 4096 % 16 * 4096 + j % 512 = j / 2 ^ 12 % 2 ^ 4 * 2 ^ 12 + j % 2 ^ 9 := by
    norm_num
  rw [e1, e2]
  apply Nat.eq_of_testBit_eq
  intro i
  rw [Nat.testBit_land,
    testBit_hilo 15 511 12 i (by norm_num),
    testBit_hilo (j / 2 ^ 12 % 2 ^ 4) (j % 2 ^ 9) 12 i
      (lt_of_lt_of_le (Nat.mod_lt _ (by norm_num)) (by norm_num))]
  rcases lt_or_ge i 12 with h12 | h12
  · rw [if_pos h12, if_pos h12]
    have e3 : (511 : Nat) = 2 ^ 9 - 1 := by norm_num
    rw [e3, Nat.testBit_two_pow_sub_one, Nat.testBit_mod_two_pow]
    exact Bool.and_comm _ _
  · rw [if_neg (not_lt.mpr h12), if_neg (not_lt.mpr h12)]
    have e4 : (15 : Nat) = 2 ^ 4 - 1 := by norm_num
    rw [e4, Nat.testBit_two_pow_sub_one, Nat.testBit_mod_two_pow, testBit_div_pow]
    have e5 : 12 + (i - 12) = i := by omega
    rw [e5]
    exact Bool.and_comm _ _

theorem land_F1F8 (j : Nat) : j &&& 0xF1F8 = j / 4096 % 16 * 4096 + j / 8 % 64 * 8 := by
  have e1 : (0xF1F8 : Nat) = 15 * 2 ^ 12 + 63 * 2 ^ 3 := by norm_num
  have e2 : j / 4096 % 16 * 4096 + j / 8 % 64 * 8
      = j / 2 ^ 12 % 2 ^ 4 * 2 ^ 12 + j / 2 ^ 3 % 2 ^ 6 * 2 ^ 3 := by norm_num
  rw [e1, e2]
  apply Nat.eq_of_testBit_eq
  intro i
  rw [Nat.testBit_land,
    testBit_hilo 15 (63 * 2 ^ 3) 12 i (by norm_num),
    testBit_hilo (j / 2 ^ 12 % 2 ^ 4) (j / 2 ^ 3 % 2 ^ 6 * 2 ^ 3) 12 i
      (lt_of_le_of_lt (Nat.mul_le_mul_right _ (Nat.le_of_lt_succ (Nat.mod_lt _ (by norm_num))))
        (by norm_num))]
  rcases lt_or_ge i 12 with h12 | h12
  · rw [if_pos h12, if_pos h12, testBit_mulPow, testBit_mulPow]
    rcases lt_or_ge i 3 with h3 | h3
    · simp [h3]
    · rw [if_neg (not_lt.mpr h3), if_neg (not_lt.mpr h3)]
      have e3 : (63 : Nat) = 2 ^ 6 - 1 := by norm_num
      rw [e3, Nat.testBit_two_pow_sub_one, Nat.testBit_mod_two_pow, testBit_div_pow]
      have e4 : 3 + (i - 3) = i := by omega
      rw [e4]
      exact Bool.and_comm _ _
  · rw [if_neg (not_lt.mpr h12), if_neg (not_lt.mpr h12)]
    have e5 : (15 : Nat) = 2 ^ 4 - 1 := by norm_num
    rw [e5, Nat.testBit_two_pow_sub_one, Nat.testBit_mod_two_pow, testBit_div_pow]
    have e6 : 12 + (i - 12) = i := by omega
    rw [e6]
    exact Bool.and_comm _ _

theorem land_F100 (j : Nat) : j &&& 0xF100 = j / 4096 % 16 * 4096 + j / 256 % 2 * 256 := by
  have e1 : (0xF100 : Nat) = 15 * 2 ^ 12 + 1 * 2 ^ 8 := by norm_num
  have e2 : j / 4096 % 16 * 4096 + j / 256 % 2 * 256
      = j / 2 ^ 12 % 2 ^ 4 * 2 ^ 12 + j / 2 ^ 8 % 2 ^ 1 * 2 ^ 8 := by norm_num
  rw [e1, e2]
  apply Nat.eq_of_testBit_eq
  intro i
  rw [Nat.testBit_land,
    testBit_hilo 15 (1 * 2 ^ 8) 12 i (by norm_num),
    testBit_hilo (j / 2 ^ 12 % 2 ^ 4) (j / 2 ^ 8 % 2 ^ 1 * 2 ^ 8) 12 i
      (lt_of_le_of_lt (Nat.mul_le_mul_right _ (Nat.le_of_lt_succ (Nat.mod_lt _ (by norm_num))))
        (by norm_num))]
  rcases lt_or_ge i 12 with h12 | h12
  · rw [if_pos h12, if_pos h12, testBit_mulPow, testBit_mulPow]
    rcases lt_or_ge i 8 with h8 | h8
    · simp [h8]
    · rw [if_neg (not_lt.mpr h8), if_neg (not_lt.mpr h8)]
      have e3 : (1 : Nat) = 2 ^ 1 - 1 := by norm_num
      rw [e3, Nat.testBit_two_pow_sub_one, Nat.testBit_mod_two_pow, testBit_div_pow]
      have e4 : 8 + (i - 8) = i := by omega
      rw [e4]
      exact Bool.and_comm _ _
  · rw [if_neg (not_lt.mpr h12), if_neg (not_lt.mpr h12)]
    have e5 : (15 : Nat) = 2 ^ 4 - 1 := by norm_num
    rw [e5, Nat.testBit_two_pow_sub_one, Nat.testBit_mod_two_pow, testBit_div_pow]
    have e6 : 12 + (i - 12) = i := by omega
    rw [e6]
    exact Bool.and_comm _ _

/-! ### Counting matches of a mask/matching pattern -/

theorem land_eq_zero_iff (a b : Nat) :
    a &&& b = 0 ↔ ∀ i, a.testBit i = false ∨ b.testBit i = false := by
  constructor
  · intro h i
    have := congrArg (Nat.testBit · i) h
    simp only [Nat.testBit_land, Nat.zero_testBit] at this
    rcases Bool.and_eq_false_iff.mp this with h1 | h1
    · exact Or.inl h1
    · exact Or.inr h1
  · intro h
    apply Nat.eq_of_testBit_eq
    intro i
    rw [Nat.testBit_land, Nat.zero_testBit]
    rcases h i with h1 | h1 <;> simp [h1]

theorem addPow_land_zero (w f mask : Nat) (hf : f < 2 ^ w) :
    (2 ^ w + f) &&& mask = 0 ↔ f &&& mask = 0 ∧ mask.testBit w = false := by
  have hpow : 2 ^ w + f < 2 ^ (w + 1) := by
    have : (2 : Nat) ^ (w + 1) = 2 ^ w + 2 ^ w := by rw [Nat.pow_succ, Nat.mul_two]
    omega
  rw [land_eq_zero_iff, land_eq_zero_iff]
  constructor
  · intro h
    refine ⟨fun i => ?_, ?_⟩
    · rcases lt_trichotomy i w with hi | rfl | hi
      · have hh := h i
        rwa [Nat.testBit_two_pow_add_gt hi] at hh
      · exact Or.inl (Nat.testBit_lt_two_pow hf)
      · exact Or.inl (Nat.testBit_lt_two_pow
          (lt_of_lt_of_le hf (Nat.pow_le_pow_right (by norm_num) (Nat.le_of_lt hi))))
    · have hh := h w
      rw [Nat.testBit_two_pow_add_eq, Nat.testBit_lt_two_pow hf] at hh
      simpa using hh
  · rintro ⟨h1, h2⟩ i
    rcases lt_trichotomy i w with hi | rfl | hi
    · rw [Nat.testBit_two_pow_add_gt hi]
      exact h1 i
    · exact Or.inr h2
    · exact Or.inl (Nat.testBit_lt_two_pow
        (lt_of_lt_of_le hpow (Nat.pow_le_pow_right (by norm_num) hi)))

theorem countP_land_zero (mask : Nat) :
    ∀ w, (List.range (2 ^ w)).countP (fun f => f &&& mask == 0)
      = 2 ^ ((List.range w).countP (fun i => !(mask.testBit i))) := by
  intro w
  induction w with
  | zero =>
    have h1 : List.range 1 = [0] := rfl
    simp [h1, List.countP_cons, Nat.zero_and]
  | succ w ih =>
    have hsplit : (2 : Nat) ^ (w + 1) = 2 ^ w + 2 ^ w := by rw [Nat.pow_succ, Nat.mul_two]
    rw [hsplit, List.range_add, List.countP_append, List.countP_map, ih,
      List.range_succ, List.countP_append]
    by_cases hw : mask.testBit w
    · have hzero : (List.range (2 ^ w)).countP
          ((fun f => f &&& mask == 0) ∘ fun x => 2 ^ w + x) = 0 := by
        rw [List.countP_eq_zero]
        intro f hf
        rw [List.mem_range] at hf
        simp only [Function.comp_apply, beq_iff_eq]
        intro hcon
        exact absurd ((addPow_land_zero w f mask hf).mp hcon).2 (by simp [hw])
      rw [hzero]
      simp [hw]
    · have hsame : (List.range (2 ^ w)).countP
          ((fun f => f &&& mask == 0) ∘ fun x => 2 ^ w + x)
          = (List.range (2 ^ w)).countP (fun f => f &&& mask == 0) := by
        apply List.countP_congr
        intro f hf
        rw [List.mem_range] at hf
        simp only [Function.comp_apply, beq_iff_eq]
        rw [addPow_land_zero w f mask hf]
        simp [Bool.eq_false_iff.mpr hw]
      rw [hsame, ih]
      simp [hw, Nat.pow_succ, Nat.mul_two]

theorem xor_eq_right_iff (a b : Nat) : a ^^^ b = b ↔ a = 0 := by
  constructor
  · intro h
    have := congrArg (· ^^^ b) h
    simpa [Nat.xor_cancel_right, Nat.xor_self] using this
  · rintro rfl
    exact Nat.zero_xor b

theorem range_xor_perm (m : Nat) (hm : m < 65536) :
    ((List.range 65536).map (· ^^^ m)).Perm (List.range 65536) := by
  have h16 : (65536 : Nat) = 2 ^ 16 := by norm_num
  have hinj : Function.Injective (· ^^^ m) := by
    intro a b h
    have := congrArg (· ^^^ m) h
    simpa [Nat.xor_cancel_right] using this
  rw [List.perm_ext_iff_of_nodup (List.Nodup.map hinj (List.nodup_range 65536)) (List.nodup_range 65536)]
  intro a
  simp only [List.mem_map, List.mem_range]
  constructor
  · rintro ⟨x, hx, rfl⟩
    rw [h16] at hx hm ⊢
    exact Nat.xor_lt_two_pow hx hm
  · intro ha
    refine ⟨a ^^^ m, ?_, Nat.xor_cancel_right _ _⟩
    rw [h16] at ha hm ⊢
    exact Nat.xor_lt_two_pow ha hm

theorem countMatches_le (mask matching : Nat) (hmm : mask &&& matching = matching) :
    (List.range 65536).countP (fun op => op &&& mask == matching) ≤ 2 ^ zeros16 mask := by
  rcases lt_or_ge matching 65536 with hlt | hge
  · have hperm := (range_xor_perm matching hlt).countP_eq (fun op => op &&& mask == matching)
    rw [← hperm, List.countP_map]
    have hcongr : (List.range 65536).countP
        ((fun op => op &&& mask == matching) ∘ fun x => x ^^^ matching)
        = (List.range 65536).countP (fun f => f &&& mask == 0) := by
      apply List.countP_congr
      intro f _
      simp only [Function.comp_apply, beq_iff_eq]
      rw [Nat.and_xor_distrib_right, Nat.land_comm matching mask, hmm, xor_eq_right_iff]
    rw [hcongr]
    have h16 : (65536 : Nat) = 2 ^ 16 := by norm_num
    rw [h16, countP_land_zero mask 16]
    exact le_refl _
  · have hzero : (List.range 65536).countP (fun op => op &&& mask == matching) = 0 := by
      rw [List.countP_eq_zero]
      intro op hop
      rw [List.mem_range] at hop
      simp only [beq_iff_eq]
      intro hcon
      have : op &&& mask ≤ op := Nat.and_le_left
      omega
    rw [hzero]
    exact Nat.zero_le _

/-! ### The contiguous scanning loop hits exactly the naive match set -/

theorem mem_naiveIndices (mask matching j : Nat) :
    j ∈ naiveIndices mask matching ↔ j < 65536 ∧ j &&& mask = matching := by
  rw [naiveIndices, List.mem_filter, List.mem_range]
  simp only [beq_iff_eq]

theorem contigGo_mem (mask matching : Nat) (opcode count maxCount : Nat)
    (hcnt : (List.range' opcode (65536 - opcode)).countP
        (fun op => op &&& mask == matching) ≤ maxCount - count) (j : Nat) :
    j ∈ contigGo mask matching opcode count maxCount ↔
      opcode ≤ j ∧ j < 65536 ∧ j &&& mask = matching := by
  induction opcode, count, maxCount using contigGo.induct mask matching with
  | case1 opcode count maxCount hop hmatch hbreak =>
    rw [contigGo, dif_pos hop, if_pos hmatch, if_pos hbreak]
    have hrec : 65536 - opcode = (65536 - (opcode + 1)) + 1 := by omega
    rw [hrec, List.range'_succ, List.countP_cons, hmatch] at hcnt
    simp only [if_pos] at hcnt
    have hrest : (List.range' (opcode + 1) (65536 - (opcode + 1))).countP
        (fun op => op &&& mask == matching) = 0 := by omega
    rw [List.countP_eq_zero] at hrest
    constructor
    · intro hj
      rcases List.mem_singleton.mp hj with rfl
      exact ⟨le_refl _, hop, by simpa using hmatch⟩
    · rintro ⟨h1, h2, h3⟩
      rcases Nat.eq_or_lt_of_le h1 with rfl | h4
      · exact List.mem_singleton.mpr rfl
      · exfalso
        apply hrest j
        · rw [List.mem_range'_1]
          omega
        · simpa using h3
  | case2 opcode count maxCount hop hmatch hbreak ih =>
    rw [contigGo, dif_pos hop, if_pos hmatch, if_neg hbreak]
    simp only [List.mem_cons]
    have hrec : 65536 - opcode = (65536 - (opcode + 1)) + 1 := by omega
    rw [hrec, List.range'_succ, List.countP_cons, hmatch] at hcnt
    simp only [if_pos] at hcnt
    have ih2 := ih (by omega)
    rw [ih2]
    constructor
    · rintro (rfl | ⟨h1, h2, h3⟩)
      · exact ⟨le_refl _, hop, by simpa using hmatch⟩
      · exact ⟨by omega, h2, h3⟩
    · rintro ⟨h1, h2, h3⟩
      rcases Nat.eq_or_lt_of_le h1 with rfl | h4
      · exact Or.inl rfl
      · exact Or.inr ⟨by omega, h2, h3⟩
  | case3 opcode count maxCount hop hmatch ih =>
    rw [contigGo, dif_pos hop, if_neg hmatch]
    have hrec : 65536 - opcode = (65536 - (opcode + 1)) + 1 := by omega
    rw [hrec, List.range'_succ, List.countP_cons] at hcnt
    rw [if_neg (by simpa using hmatch)] at hcnt
    have ih2 := ih (by omega)
    rw [ih2]
    constructor
    · rintro ⟨h1, h2, h3⟩
      exact ⟨by omega, h2, h3⟩
    · rintro ⟨h1, h2, h3⟩
      refine ⟨?_, h2, h3⟩
      rcases Nat.eq_or_lt_of_le h1 with rfl | h4
      · exact absurd (by simpa using h3) hmatch
      · omega
  | case4 opcode count maxCount hop =>
    rw [contigGo, dif_neg hop]
    simp only [List.not_mem_nil, false_iff]
    rintro ⟨h1, h2, _⟩
    omega

theorem contig_eq_naive (mask matching : Nat) (hmm : mask &&& matching = matching) (j : Nat) :
    j ∈ contigGo mask matching matching 0 (1 <<< zeros16 mask) ↔
      j ∈ naiveIndices mask matching := by
  have hshift : (1 : Nat) <<< zeros16 mask = 2 ^ zeros16 mask := by
    rw [Nat.shiftLeft_eq, one_mul]
  have hcnt : (List.range' matching (65536 - matching)).countP
      (fun op => op &&& mask == matching) ≤ (1 <<< zeros16 mask) - 0 := by
    rw [hshift, Nat.sub_zero]
    rcases le_or_lt matching 65536 with hle | hgt
    · have hsplit : List.range' 0 matching ++ List.range' (0 + matching) (65536 - matching)
          = List.range' 0 ((65536 - matching) + matching) := by
        have := List.range'_append_1 0 matching (65536 - matching)
        simpa using this
      have h65536 : (65536 - matching) + matching = 65536 := by omega
      have hra : (List.range 65536).countP (fun op => op &&& mask == matching)
          = (List.range' 0 matching).countP (fun op => op &&& mask == matching)
            + (List.range' matching (65536 - matching)).countP
                (fun op => op &&& mask == matching) := by
        rw [List.range_eq_range', ← h65536, ← hsplit, List.countP_append]
        simp
      have := countMatches_le mask matching hmm
      omega
    · have : 65536 - matching = 0 := by omega
      rw [this]
      simp [List.range']
  have h := contigGo_mem mask matching matching 0 (1 <<< zeros16 mask) hcnt j
  rw [h, mem_naiveIndices]
  constructor
  · rintro ⟨_, h2, h3⟩
    exact ⟨h2, h3⟩
  · rintro ⟨h2, h3⟩
    refine ⟨?_, h2, h3⟩
    have : j &&& mask ≤ j := Nat.and_le_left
    omega

/-! ### The fast-path offsets hit exactly the naive match set -/

theorem mem_fastIndices (len matching j : Nat) :
    j ∈ fastIndices (x_offset len) matching ↔
      ∃ x, x < 8 ∧ ∃ k, k < len ∧ j = 512 * x + k + matching := by
  simp only [fastIndices, x_offset, List.mem_flatMap, List.mem_map, List.mem_range]
  constructor
  · rintro ⟨p, hp, k, hk, rfl⟩
    simp only [List.mem_cons, List.not_mem_nil, or_false] at hp
    rcases hp with rfl | rfl | rfl | rfl | rfl | rfl | rfl | rfl
    · exact ⟨0, by norm_num, k, hk, by omega⟩
    · exact ⟨1, by norm_num, k, hk, by omega⟩
    · exact ⟨2, by norm_num, k, hk, by omega⟩
    · exact ⟨3, by norm_num, k, hk, by omega⟩
    · exact ⟨4, by norm_num, k, hk, by omega⟩
    · exact ⟨5, by norm_num, k, hk, by omega⟩
    · exact ⟨6, by norm_num, k, hk, by omega⟩
    · exact ⟨7, by norm_num, k, hk, by omega⟩
  · rintro ⟨x, hx, k, hk, rfl⟩
    interval_cases x
    · exact ⟨(0, len), by simp, k, hk, by omega⟩
    · exact ⟨(512, len), by simp, k, hk, by omega⟩
    · exact ⟨(1024, len), by simp, k, hk, by omega⟩
    · exact ⟨(1536, len), by simp, k, hk, by omega⟩
    · exact ⟨(2048, len), by simp, k, hk, by omega⟩
    · exact ⟨(2560, len), by simp, k, hk, by omega⟩
    · exact ⟨(3072, len), by simp, k, hk, by omega⟩
    · exact ⟨(3584, len), by simp, k, hk, by omega⟩

theorem fastX_eq_naive (matching : Nat) (hmm : (0xF1FF : Nat) &&& matching = matching) (j : Nat) :
    j ∈ fastIndices (x_offset 1) matching ↔ j ∈ naiveIndices 0xF1FF matching := by
  rw [Nat.land_comm] at hmm
  have hm := land_F1FF matching
  rw [mem_fastIndices, mem_naiveIndices]
  constructor
  · rintro ⟨x, hx, k, hk, rfl⟩
    have hk0 : k = 0 := by omega
    subst hk0
    have hj := land_F1FF (512 * x + 0 + matching)
    exact ⟨by omega, by omega⟩
  · rintro ⟨hj65, hjm⟩
    have hj := land_F1FF j
    exact ⟨j / 512 % 8, by omega, 0, by norm_num, by omega⟩

theorem fastXY_eq_naive (matching : Nat) (hmm : (0xF1F8 : Nat) &&& matching = matching) (j : Nat) :
    j ∈ fastIndices (x_offset 8) matching ↔ j ∈ naiveIndices 0xF1F8 matching := by
  rw [Nat.land_comm] at hmm
  have hm := land_F1F8 matching
  rw [mem_fastIndices, mem_naiveIndices]
  constructor
  · rintro ⟨x, hx, k, hk, rfl⟩
    have hj := land_F1F8 (512 * x + k + matching)
    exact ⟨by omega, by omega⟩
  · rintro ⟨hj65, hjm⟩
    have hj := land_F1F8 j
    exact ⟨j / 512 % 8, by omega, j % 8, by omega, by omega⟩

theorem fastLB_eq_naive (matching : Nat) (hmm : (0xF100 : Nat) &&& matching = matching) (j : Nat) :
    j ∈ fastIndices (x_offset 256) matching ↔ j ∈ naiveIndices 0xF100 matching := by
  rw [Nat.land_comm] at hmm
  have hm := land_F100 matching
  rw [mem_fastIndices, mem_naiveIndices]
  constructor
  · rintro ⟨x, hx, k, hk, rfl⟩
    have hj := land_F100 (512 * x + k + matching)
    exact ⟨by omega, by omega⟩
  · rintro ⟨hj65, hjm⟩
    have hj := land_F100 j
    exact ⟨j / 512 % 8, by omega, j % 256, by omega, by omega⟩

/-! ### Per-rule index sets and table folds -/

theorem ruleIndices_fast {α : Type} (r : OpcodeHandler α) (offsets : List (Nat × Nat))
    (h : offset_cache r.mask = some offsets) :
    ruleIndices r = fastIndices offsets r.matching := by
  rw [ruleIndices, h]

theorem ruleIndices_contig {α : Type} (r : OpcodeHandler α)
    (h : offset_cache r.mask = none) :
    ruleIndices r = contigGo r.mask r.matching r.matching 0 (1 <<< zeros16 r.mask) := by
  rw [ruleIndices, h]

theorem ruleIndices_mem {α : Type} (r : OpcodeHandler α)
    (hr : r.mask &&& r.matching = r.matching) (j : Nat) :
    j ∈ ruleIndices r ↔ j ∈ naiveIndices r.mask r.matching := by
  by_cases h1 : r.mask = MASK_OUT_X
  · have hoc : offset_cache r.mask = some (x_offset 1) := by rw [offset_cache, if_pos h1]
    rw [ruleIndices_fast r _ hoc, h1]
    rw [h1] at hr
    exact fastX_eq_naive r.matching hr j
  · by_cases h2 : r.mask = MASK_OUT_X_Y
    · have hoc : offset_cache r.mask = some (x_offset 8) := by
        rw [offset_cache, if_neg h1, if_pos h2]
      rw [ruleIndices_fast r _ hoc, h2]
      rw [h2] at hr
      exact fastXY_eq_naive r.matching hr j
    · by_cases h3 : r.mask = MASK_LOBYTX
      · have hoc : offset_cache r.mask = some (x_offset 256) := by
          rw [offset_cache, if_neg h1, if_neg h2, if_pos h3]
        rw [ruleIndices_fast r _ hoc, h3]
        rw [h3] at hr
        exact fastLB_eq_naive r.matching hr j
      · have hoc : offset_cache r.mask = none := by
          rw [offset_cache, if_neg h1, if_neg h2, if_neg h3]
        rw [ruleIndices_contig r hoc]
        exact contig_eq_naive r.mask r.matching hr j

theorem writeAll_apply {α : Type} (t : Nat → α) (idxs : List Nat) (v : α) (j : Nat) :
    writeAll t idxs v j = if j ∈ idxs then v else t j := by
  induction idxs generalizing t with
  | nil => simp [writeAll]
  | cons i is ih =>
    show writeAll (write t i v) is v j = _
    rw [ih]
    by_cases his : j ∈ is
    · simp [his, List.mem_cons]
    · by_cases hji : j = i
      · simp [his, hji, write]
      · simp [his, hji, write]

theorem foldWrites_eq {α : Type} (rules : List (OpcodeHandler α))
    (hinv : ∀ r ∈ rules, r.mask &&& r.matching = r.matching) :
    ∀ t1 t2 : Nat → α, (∀ j, t1 j = t2 j) → ∀ j,
      rules.foldl (fun t op => writeAll t (ruleIndices op) op.handler) t1 j
        = rules.foldl (fun t op => writeAll t (naiveIndices op.mask op.matching) op.handler) t2 j := by
  induction rules with
  | nil => intro t1 t2 ht j; exact ht j
  | cons r rs ih =>
    intro t1 t2 ht j
    simp only [List.foldl_cons]
    apply ih (fun q hq => hinv q (List.mem_cons_of_mem _ hq))
    intro j2
    rw [writeAll_apply, writeAll_apply]
    have hmem := ruleIndices_mem r (hinv r (List.mem_cons_self _ _)) j2
    by_cases hj : j2 ∈ naiveIndices r.mask r.matching
    · rw [if_pos hj, if_pos (hmem.mpr hj)]
    · rw [if_neg hj, if_neg (fun hc => hj (hmem.mp hc)), ht j2]

theorem generate_eq_naive {α : Type} (illegalH : α) (optable : List (OpcodeHandler α))
    (hinv : ∀ r ∈ optable, r.mask &&& r.matching = r.matching) (j : Nat) :
    generate illegalH optable j = naiveGenerate illegalH optable j := by
  exact foldWrites_eq optable hinv _ _ (fun _ => rfl) j

theorem naive_lastMatch_aux {α : Type} (illegalH : α) :
    ∀ (rules : List (OpcodeHandler α)) (t : Nat → α) (acc : Option (OpcodeHandler α)) (j : Nat),
      j < 65536 →
      t j = (match acc with | some r => r.handler | none => illegalH) →
      rules.foldl (fun t op => writeAll t (naiveIndices op.mask op.matching) op.handler) t j
        = match rules.foldl (fun a r => if j &&& r.mask == r.matching then some r else a) acc with
          | some r => r.handler
          | none => illegalH := by
  intro rules
  induction rules with
  | nil =>
    intro t acc j _ ht
    simpa using ht
  | cons r rs ih =>
    intro t acc j hj ht
    simp only [List.foldl_cons]
    apply ih
    · exact hj
    · rw [writeAll_apply]
      by_cases hm : (j &&& r.mask == r.matching) = true
      · have hmem : j ∈ naiveIndices r.mask r.matching :=
          (mem_naiveIndices _ _ _).mpr ⟨hj, by simpa using hm⟩
        rw [if_pos hmem, if_pos hm]
      · have hmem : j ∉ naiveIndices r.mask r.matching := fun hc =>
          hm (by simpa using ((mem_naiveIndices _ _ _).mp hc).2)
        rw [if_neg hmem, if_neg hm]
        exact ht

theorem naive_eq_lastMatch {α : Type} (illegalH : α) (optable : List (OpcodeHandler α))
    (j : Nat) (hj : j < 65536) :
    naiveGenerate illegalH optable j
      = match lastMatch optable j with | some r => r.handler | none => illegalH := by
  exact naive_lastMatch_aux illegalH optable _ none j hj rfl

theorem generate_eq_lastMatch {α : Type} (illegalH : α) (optable : List (OpcodeHandler α))
    (hinv : ∀ r ∈ optable, r.mask &&& r.matching = r.matching) (j : Nat) (hj : j < 65536) :
    generate illegalH optable j
      = match lastMatch optable j with | some r => r.handler | none => illegalH := by
  rw [generate_eq_naive illegalH optable hinv j]
  exact naive_eq_lastMatch illegalH optable j hj

theorem lastMatch_none {α : Type} (optable : List (OpcodeHandler α)) (j : Nat)
    (h : ∀ r ∈ optable, ¬(j &&& r.mask = r.matching)) :
    lastMatch optable j = none := by
  have haux : ∀ (rules : List (OpcodeHandler α)) (acc : Option (OpcodeHandler α)),
      (∀ r ∈ rules, ¬(j &&& r.mask = r.matching)) →
      rules.foldl (fun a r => if j &&& r.mask == r.matching then some r else a) acc = acc := by
    intro rules
    induction rules with
    | nil => intro acc _; rfl
    | cons r rs ih =>
      intro acc hacc
      simp only [List.foldl_cons]
      rw [if_neg (by simpa using hacc r (List.mem_cons_self _ _))]
      exact ih acc (fun q hq => hacc q (List.mem_cons_of_mem _ hq))
  exact haux optable none h

/-! ### The duplicated loops of `generate_with` compute the same indices -/

theorem contigGoW_eq_contigGo (mask matching : Nat) (opcode count maxCount : Nat) :
    contigGoW mask matching opcode count maxCount
      = contigGo mask matching opcode count maxCount := by
  induction opcode, count, maxCount using contigGoW.induct mask matching with
  | case1 o c m hop hm hb =>
    rw [contigGoW, contigGo, dif_pos hop, dif_pos hop, if_pos hm, if_pos hm, if_pos hb, if_pos hb]
  | case2 o c m hop hm hb ih =>
    rw [contigGoW, contigGo, dif_pos hop, dif_pos hop, if_pos hm, if_pos hm,
      if_neg hb, if_neg hb, ih]
  | case3 o c m hop hm ih =>
    rw [contigGoW, contigGo, dif_pos hop, dif_pos hop, if_neg hm, if_neg hm, ih]
  | case4 o c m hop =>
    rw [contigGoW, contigGo, dif_neg hop, dif_neg hop]

theorem ruleIndicesW_eq {α : Type} (r : OpcodeHandler α) : ruleIndicesW r = ruleIndices r := by
  rw [ruleIndicesW, ruleIndices]
  have hoc : offset_cacheW r.mask = offset_cache r.mask := rfl
  rw [hoc]
  cases hsc : offset_cache r.mask with
  | none => exact contigGoW_eq_contigGo _ _ _ _ _
  | some offsets => rfl

/-! ### The construction-time self-check -/

theorem selfCheck_ok_iff {α : Type} (rules : List (OpcodeHandler α)) :
    maskMatchingSelfCheck rules = Except.ok () ↔
      ∀ r ∈ rules, r.mask &&& r.matching = r.matching := by
  induction rules with
  | nil => simp [maskMatchingSelfCheck]
  | cons r rs ih =>
    rw [maskMatchingSelfCheck]
    by_cases h : r.mask &&& r.matching = r.matching
    · rw [if_neg (fun hc => hc h), ih]
      constructor
      · intro hall q hq
        rcases List.mem_cons.mp hq with rfl | hq2
        · exact h
        · exact hall q hq2
      · intro hall q hq
        exact hall q (List.mem_cons_of_mem _ hq)
    · rw [if_pos h]
      constructor
      · intro hc
        exact Except.noConfusion hc
      · intro hall
        exact absurd (hall r (List.mem_cons_self _ _)) h

theorem selfCheck_error {α : Type} (rules : List (OpcodeHandler α))
    (hv : ∃ r ∈ rules, ¬(r.mask &&& r.matching = r.matching)) :
    ∃ nm, maskMatchingSelfCheck rules = Except.error nm := by
  rcases h : maskMatchingSelfCheck rules with nm | u
  · exact ⟨nm, rfl⟩
  · rcases hv with ⟨r, hr, hnr⟩
    cases u
    exact absurd ((selfCheck_ok_iff rules).mp h r hr) hnr

/-! ### Claim theorems -/

/-- Claim C1: the optimized opcode-table construction is equivalent to naive
enumeration.  For every rule list whose rules satisfy the construction
invariant `mask & matching == matching` (the invariant the repository's own
self-check enforces), each rule's fast-path or contiguous-path index set
covers exactly the opcodes of the naive
`for op in 0..65536 { if op & mask == matching }` loop, and the table produced
by `generate` assigns to each opcode the handler of the last rule in list
order matching it (or `illegal`). -/
theorem C1_generate_refines_naive_enumeration {α : Type} (illegalH : α)
    (optable : List (OpcodeHandler α))
    (hinv : ∀ r ∈ optable, r.mask &&& r.matching = r.matching) :
    (∀ r ∈ optable, ∀ j, j ∈ ruleIndices r ↔ j ∈ naiveIndices r.mask r.matching) ∧
    (∀ op, op < 65536 →
      generate illegalH optable op = naiveGenerate illegalH optable op ∧
      naiveGenerate illegalH optable op
        = match lastMatch optable op with | some r => r.handler | none => illegalH) :=
  ⟨fun r hr j => ruleIndices_mem r (hinv r hr) j,
   fun op hop => ⟨generate_eq_naive illegalH optable hinv op,
     naive_eq_lastMatch illegalH optable op hop⟩⟩

/-- Witness for C1 at the modelled rule-list fragment and opcode `0xD411`
(`ADD.B (A1),D2`, pinned by the repository's disassembler test). -/
theorem C1_witness :
    (∀ r ∈ optableModel, r.mask &&& r.matching = r.matching) ∧
    (generate "illegal" optableModel 0xD411 = naiveGenerate "illegal" optableModel 0xD411 ∧
     naiveGenerate "illegal" optableModel 0xD411
       = match lastMatch optableModel 0xD411 with | some r => r.handler | none => "illegal") :=
  ⟨by decide,
   (C1_generate_refines_naive_enumeration "illegal" optableModel (by decide)).2 0xD411 (by decide)⟩

/-- Claim C3: under the construction invariant, every opcode in `0..0xFFFF`
maps to exactly one handler through the generated table, the table is
pre-filled with `illegal` (an empty rule list leaves every entry `illegal`),
and an opcode matched by no rule keeps the `illegal` handler. -/
theorem C3_unmatched_opcodes_are_illegal {α : Type} (illegalH : α)
    (optable : List (OpcodeHandler α))
    (hinv : ∀ r ∈ optable, r.mask &&& r.matching = r.matching)
    (op : Nat) (hop : op < 65536) :
    (∃! h, generate illegalH optable op = h) ∧
    generate illegalH ([] : List (OpcodeHandler α)) op = illegalH ∧
    ((∀ r ∈ optable, ¬(op &&& r.mask = r.matching)) →
      generate illegalH optable op = illegalH) := by
  refine ⟨⟨generate illegalH optable op, rfl, fun y hy => hy.symm⟩, rfl, fun hno => ?_⟩
  rw [generate_eq_lastMatch illegalH optable hinv op hop, lastMatch_none optable op hno]

/-- Witness for C3: opcode `0x0000` is matched by no rule of the modelled
fragment and maps to `illegal`. -/
theorem C3_witness :
    (∀ r ∈ optableModel, r.mask &&& r.matching = r.matching) ∧
    (∀ r ∈ optableModel, ¬(0 &&& r.mask = r.matching)) ∧
    generate "illegal" optableModel 0 = "illegal" :=
  ⟨by decide, by decide,
   (C3_unmatched_opcodes_are_illegal "illegal" optableModel (by decide) 0 (by decide)).2.2
     (by decide)⟩

/-- Claim C9: `generate` and `generate_with` agree: with default `illegal` and
the projection extracting the rule's handler, the duplicated construction
loops place the same rules at the same table indices, for every rule list and
every opcode. -/
theorem C9_generate_with_agrees_with_generate {α : Type} (illegalH : α)
    (optable : List (OpcodeHandler α)) (op : Nat) :
    generate_with illegalH (fun r => r.handler) optable op
      = generate illegalH optable op := by
  have hstep : (fun (t : Nat → α) (r : OpcodeHandler α) =>
        writeAll t (ruleIndicesW r) ((fun q => q.handler) r))
      = fun (t : Nat → α) (r : OpcodeHandler α) => writeAll t (ruleIndices r) r.handler := by
    funext t r
    rw [ruleIndicesW_eq]
  rw [generate_with, generate, hstep]

/-- Claim C5: branch displacement handling.  The displacement of Bcc/BRA/BSR
is the low opcode byte (`decode_branch` returns it directly when strictly
between `0x00` and `0xFF`); a low byte of `0x00` makes `decode_branch` consume
the following extension word; and in the final table built from the branch
rules every branch opcode with low byte `0xFF` holds the `illegal` handler,
while the low-byte-`0x00` slots hold the word-displacement handlers (so the
byte-form handlers occupy only the low bytes strictly between). -/
theorem C5_branch_displacement_rules :
    (∀ c, c < 16 → generate "illegal" branchRules (0x6000 + 256 * c + 0xFF) = "illegal") ∧
    (∀ c, c < 16 → generate "illegal" branchRules (0x6000 + 256 * c) = branch16Name c) ∧
    (∀ opcode sz pc mem, opcode &&& 0xFF = 0 →
      decode_branch opcode sz pc mem
        = some [Operand.Displacement Size.Word (readWord mem (add32 pc 2))]) ∧
    (∀ opcode sz pc mem, 0 < opcode &&& 0xFF → opcode &&& 0xFF < 0xFF →
      decode_branch opcode sz pc mem
        = some [Operand.Displacement Size.Byte (opcode &&& 0xFF)]) := by
  have hinv : ∀ r ∈ branchRules, r.mask &&& r.matching = r.matching := by decide
  refine ⟨?_, ?_, ?_, ?_⟩
  · intro c hc
    have h := generate_eq_lastMatch "illegal" branchRules hinv (0x6000 + 256 * c + 0xFF)
      (by omega)
    rw [h]
    interval_cases c <;> decide
  · intro c hc
    have h := generate_eq_lastMatch "illegal" branchRules hinv (0x6000 + 256 * c) (by omega)
    rw [h]
    interval_cases c <;> decide
  · intro opcode sz pc mem h0
    simp [decode_branch, h0]
  · intro opcode sz pc mem h1 h2
    simp [decode_branch, h1, h2]

/-- Witness for C5 at BNE (`0x66FF` is illegal in the table; `0x6604` decodes
to a byte displacement of 4). -/
theorem C5_witness :
    generate "illegal" branchRules (0x6000 + 256 * 6 + 0xFF) = "illegal" ∧
    decode_branch 0x6604 Size.Byte 0 braMem
      = some [Operand.Displacement Size.Byte 4] := by
  refine ⟨C5_branch_displacement_rules.1 6 (by norm_num), ?_⟩
  have h := C5_branch_displacement_rules.2.2.2 0x6604 Size.Byte 0 braMem (by decide) (by decide)
  simpa using h

/-- Claim C4: the opcode-descriptor invariant `mask & matching == matching`
holds for every rule of the (spec-modelled) rule list, and the
construction-time self-checks treat any violation as fatal: the test-module
walk panics (an `Except.error`, never a recoverable `ok`) exactly when some
rule violates the invariant, and `disassemble` panics on scanning a violating
rule. -/
theorem C4_mask_matching_invariant :
    (∀ r ∈ optableModel, r.mask &&& r.matching = r.matching) ∧
    (∀ rules : List (OpcodeHandler String),
      maskMatchingSelfCheck rules = Except.ok () ↔
        ∀ r ∈ rules, r.mask &&& r.matching = r.matching) ∧
    (∀ rules : List (OpcodeHandler String),
      (∃ r ∈ rules, ¬(r.mask &&& r.matching = r.matching)) →
      ∃ nm, maskMatchingSelfCheck rules = Except.error nm) ∧
    (∀ (d : DRule) (rest : List DRule) (pc : Nat) (mem : Mem),
      ¬(d.mask &&& d.matching = d.matching) →
      disassemble (d :: rest) pc mem = DisasmResult.panicked) :=
  ⟨by decide, fun rules => selfCheck_ok_iff rules, fun rules hv => selfCheck_error rules hv,
   fun d rest pc mem h => by simp [disassemble, disassembleGo, h]⟩

/-- Witness for C4: a rule with `mask & matching != matching` makes the
self-check fail fatally. -/
theorem C4_witness :
    (∃ r ∈ [(⟨0xF000, 0x00FF, "bad", "bad"⟩ : OpcodeHandler String)],
      ¬(r.mask &&& r.matching = r.matching)) ∧
    ∃ nm, maskMatchingSelfCheck [(⟨0xF000, 0x00FF, "bad", "bad"⟩ : OpcodeHandler String)]
      = Except.error nm := by
  have hx : ∃ r ∈ [(⟨0xF000, 0x00FF, "bad", "bad"⟩ : OpcodeHandler String)],
      ¬(r.mask &&& r.matching = r.matching) :=
    ⟨⟨0xF000, 0x00FF, "bad", "bad"⟩, List.mem_singleton.mpr rfl, by decide⟩
  exact ⟨hx, C4_mask_matching_invariant.2.2.1 _ hx⟩

/-- Claim C6: `disassemble` reads one instruction word at the PC, scans the
rule list in order for the first rule whose mask/matching pattern matches and
whose EA validator accepts, and returns that rule's mnemonic, size and decoded
operands; if no rule both matches and validates, it returns an
illegal-instruction error carrying exactly the fetched opcode word and the
PC. -/
theorem C6_disassemble_first_match (optable : List DRule) (pc : Nat) (mem : Mem)
    (hinv : ∀ r ∈ optable, r.mask &&& r.matching = r.matching) :
    (∀ r, optable.find? (fun q => (readWord mem pc &&& q.mask == q.matching)
          && q.validator (readWord mem pc)) = some r →
      ∀ ops, r.decoder (readWord mem pc) r.size pc mem = some ops →
        disassemble optable pc mem = DisasmResult.ok ⟨r.mnemonic, r.size, ops⟩) ∧
    (optable.find? (fun q => (readWord mem pc &&& q.mask == q.matching)
          && q.validator (readWord mem pc)) = none →
      disassemble optable pc mem = DisasmResult.illegalInstruction (readWord mem pc) pc) := by
  induction optable with
  | nil =>
    refine ⟨?_, ?_⟩
    · intro r hr
      simp at hr
    · intro _
      rfl
  | cons d rest ih =>
    have hd := hinv d (List.mem_cons_self _ _)
    have ihrest := ih (fun q hq => hinv q (List.mem_cons_of_mem _ hq))
    by_cases hp : ((readWord mem pc &&& d.mask == d.matching)
        && d.validator (readWord mem pc)) = true
    · have hfd : (d :: rest).find? (fun q => (readWord mem pc &&& q.mask == q.matching)
          && q.validator (readWord mem pc)) = some d := List.find?_cons_of_pos rest hp
      refine ⟨?_, ?_⟩
      · intro r hr ops hops
        rw [hfd] at hr
        rcases Option.some.inj hr with rfl
        show disassembleGo (readWord mem pc) pc mem (d :: rest) = _
        rw [disassembleGo, if_neg (fun hc => hc hd), if_pos hp, hops]
      · intro hr
        rw [hfd] at hr
        cases hr
    · have hfd : (d :: rest).find? (fun q => (readWord mem pc &&& q.mask == q.matching)
          && q.validator (readWord mem pc))
          = rest.find? (fun q => (readWord mem pc &&& q.mask == q.matching)
              && q.validator (readWord mem pc)) := List.find?_cons_of_neg rest hp
      refine ⟨?_, ?_⟩
      · intro r hr ops hops
        rw [hfd] at hr
        have h2 := ihrest.1 r hr ops hops
        show disassembleGo (readWord mem pc) pc mem (d :: rest) = _
        rw [disassembleGo, if_neg (fun hc => hc hd), if_neg hp]
        exact h2
      · intro hr
        rw [hfd] at hr
        have h2 := ihrest.2 hr
        show disassembleGo (readWord mem pc) pc mem (d :: rest) = _
        rw [disassembleGo, if_neg (fun hc => hc hd), if_neg hp]
        exact h2

/-- Witness for C6: a one-rule table (BRA, byte form) disassembles `0x6004`
into `BRA` with operand displacement 4. -/
theorem C6_witness :
    (∀ r ∈ [braDRule], r.mask &&& r.matching = r.matching) ∧
    disassemble [braDRule] 0 braMem
      = DisasmResult.ok ⟨"BRA", Size.Byte, [Operand.Displacement Size.Byte 4]⟩ := by
  have hinv : ∀ r ∈ [braDRule], r.mask &&& r.matching = r.matching := by decide
  exact ⟨hinv, (C6_disassemble_first_match [braDRule] 0 braMem hinv).1 braDRule rfl
    [Operand.Displacement Size.Byte 4] rfl⟩

/-- Claim C7: the address-space tag follows the canonical function-code
numbering (1/2/5/6), `from_musashi` is a left inverse of `fc`, and
`from_musashi` aborts (panics, embedded as `none`) on any value whose low
three bits are not one of 1, 2, 5, 6. -/
theorem C7_function_code_numbering :
    AddressSpace.fc USER_DATA = 1 ∧ AddressSpace.fc USER_PROGRAM = 2 ∧
    AddressSpace.fc SUPERVISOR_DATA = 5 ∧ AddressSpace.fc SUPERVISOR_PROGRAM = 6 ∧
    (∀ s : AddressSpace, AddressSpace.from_musashi (AddressSpace.fc s) = some s) ∧
    (∀ v : Nat, v &&& 7 ≠ 1 → v &&& 7 ≠ 2 → v &&& 7 ≠ 5 → v &&& 7 ≠ 6 →
      AddressSpace.from_musashi v = none) := by
  refine ⟨rfl, rfl, rfl, rfl, ?_, ?_⟩
  · rintro ⟨m, seg⟩
    cases m <;> cases seg <;> rfl
  · intro v h1 h2 h5 h6
    rw [AddressSpace.from_musashi]
    split <;> simp_all

/-- Witness for C7: function code 0 is rejected. -/
theorem C7_witness :
    ((0 : Nat) &&& 7 ≠ 1 ∧ (0 : Nat) &&& 7 ≠ 2 ∧ (0 : Nat) &&& 7 ≠ 5 ∧ (0 : Nat) &&& 7 ≠ 6) ∧
    AddressSpace.from_musashi 0 = none :=
  ⟨⟨by decide, by decide, by decide, by decide⟩,
   C7_function_code_numbering.2.2.2.2.2 0 (by decide) (by decide) (by decide) (by decide)⟩

/-- Claim C8: multi-word operand fetches are decoded low address first as the
high half: absolute-long addresses and long immediates are
`(word at PC+2) << 16 | (word at PC+4)` (through both `effective_address` and
`decode_imm`), and a byte immediate keeps only the low 8 bits of the single
extension word at `PC+2`. -/
theorem C8_multiword_fetch_low_address_first (sz : Size) (pc : Nat) (mem : Mem)
    (h4 : pc + 4 < 4294967296) :
    effective_address sz pc mem 7 1
      = some (Operand.AbsoluteLong ((readWord mem (pc + 2)) <<< 16 ||| readWord mem (pc + 4))) ∧
    decode_imm Size.Long pc mem
      = some (Operand.Immediate Size.Long
          ((readWord mem (pc + 2)) <<< 16 ||| readWord mem (pc + 4))) ∧
    effective_address Size.Long pc mem 7 4
      = some (Operand.Immediate Size.Long
          ((readWord mem (pc + 2)) <<< 16 ||| readWord mem (pc + 4))) ∧
    decode_imm Size.Byte pc mem
      = some (Operand.Immediate Size.Byte ((readWord mem (pc + 2)) &&& 0xFF)) ∧
    effective_address Size.Byte pc mem 7 4
      = some (Operand.Immediate Size.Byte ((readWord mem (pc + 2)) &&& 0xFF)) := by
  have e2 : add32 pc 2 = pc + 2 := by
    rw [add32]
    exact Nat.mod_eq_of_lt (by omega)
  have e4 : add32 pc 4 = pc + 4 := by
    rw [add32]
    exact Nat.mod_eq_of_lt (by omega)
  refine ⟨?_, ?_, ?_, ?_, ?_⟩ <;> simp [effective_address, decode_imm, e2, e4]

/-- Witness for C8 at `pc = 0` with a memory reading `0x1234` everywhere. -/
theorem C8_witness :
    (0 + 4 < 4294967296) ∧
    decode_imm Size.Long 0 (fun _ => 0x1234)
      = some (Operand.Immediate Size.Long
          ((readWord (fun _ => 0x1234) (0 + 2)) <<< 16 ||| readWord (fun _ => 0x1234) (0 + 4))) :=
  ⟨by decide,
   (C8_multiword_fetch_low_address_first Size.Long 0 (fun _ => 0x1234) (by decide)).2.1⟩

/-- Claim C10: `decode_branch` is total and never panics: for every 16-bit
opcode the low byte is `0x00`, `0xFF`, or strictly between, exactly one of the
three displacement cases applies, the `unreachable!()` branch (embedded as
`none`) is dead, and the function returns exactly one displacement operand. -/
theorem C10_decode_branch_total (opcode : Nat) (_hop : opcode < 65536)
    (sz : Size) (pc : Nat) (mem : Mem) :
    (opcode &&& 0xFF = 0 ∨ opcode &&& 0xFF = 0xFF ∨
      (0 < opcode &&& 0xFF ∧ opcode &&& 0xFF < 0xFF)) ∧
    ∃ s v, decode_branch opcode sz pc mem = some [Operand.Displacement s v] := by
  have hle : opcode &&& 255 ≤ 255 := Nat.and_le_right
  refine ⟨by omega, ?_⟩
  by_cases h1 : 0 < opcode &&& 255 ∧ opcode &&& 255 < 255
  · exact ⟨Size.Byte, opcode &&& 255, by simp [decode_branch, h1]⟩
  · by_cases h2 : opcode &&& 255 = 0
    · exact ⟨Size.Word, readWord mem (add32 pc 2), by simp [decode_branch, h1, h2]⟩
    · have h3 : opcode &&& 255 = 255 := by omega
      exact ⟨Size.Long, (readWord mem (add32 pc 2)) <<< 16 ||| readWord mem (add32 pc 4),
        by simp [decode_branch, h1, h2, h3]⟩

/-- Witness for C10 at opcode `0x6000` (low byte `0x00`). -/
theorem C10_witness :
    (0x6000 : Nat) < 65536 ∧
    ((0x6000 : Nat) &&& 0xFF = 0 ∨ (0x6000 : Nat) &&& 0xFF = 0xFF ∨
      (0 < (0x6000 : Nat) &&& 0xFF ∧ (0x6000 : Nat) &&& 0xFF < 0xFF)) ∧
    ∃ s v, decode_branch 0x6000 Size.Byte 0 braMem = some [Operand.Displacement s v] := by
  have h := C10_decode_branch_total 0x6000 (by decide) Size.Byte 0 braMem
  exact ⟨by decide, h.1, h.2⟩

end R68K
